import Mathlib

/-! # mattermost-jira: the webhook transformation of `main.go`

A shallow embedding of `getMessage` (the JIRA webhook event to Mattermost
message transformation) together with the properties of it that the
specification states.

Go strings are byte sequences and the program indexes and slices them by
byte (`item.Field[0]`, `item.Field[1:]`), so a Go string is embedded as the
list of its bytes, each a natural number below 256 (no definition relies on
the bound).  The JSON decoding of the request is outside the embedding: the
input is the decoded `Data`.  Run-time panics (index out of range, nil pointer
dereference) are embedded as the error case of `Except`.

The Go standard library is not part of the repository.  The functions of it
that the program calls are embedded from their documented behaviour
(`strings.NewReplacer`, `strings.Trim`, `strings.HasPrefix`, `fmt.Sprintf`
with the `%s` verb, the ASCII paths of `strings.ToUpper`/`strings.ToLower`,
the `omitempty` rule of `encoding/json` and its coercion of strings to valid
UTF-8), and the parts that depend on large
tables or grammars (`url.Parse`, the Unicode case mappings) are parameters,
collected in `Stdlib`.
-/

namespace MattermostJira

/-! ## Go strings -/

/-- A Go string: an immutable sequence of bytes. -/
abbrev GoString := List Nat

/-- The UTF-8 encoding of a code point, as the Go conversion `string(r)` of an
integer value `r` produces it (valid code points only). -/
def encodeRune (r : Nat) : GoString :=
  if r < 0x80 then [r]
  else if r < 0x800 then [0xC0 + r / 64, 0x80 + r % 64]
  else if r < 0x10000 then [0xE0 + r / 4096, 0x80 + r / 64 % 64, 0x80 + r % 64]
  else [0xF0 + r / 262144, 0x80 + r / 4096 % 64, 0x80 + r / 64 % 64, 0x80 + r % 64]

/-- The bytes of a string literal of the source file (Go source is UTF-8). -/
def bytes (s : String) : GoString :=
  s.data.flatMap fun c => encodeRune c.toNat

/-! ## Run-time failures and the library parameters -/

/-- The run-time panics `getMessage` can raise. -/
inductive Panic where
  /-- Indexing a string at a position past its end: `item.Field[0]` on `""`. -/
  | indexOutOfRange
  /-- Selecting a field through a nil pointer: `u.Scheme` on a nil `*url.URL`. -/
  | nilDereference
  deriving DecidableEq, Repr

deriving instance DecidableEq for Except

/-- The two fields of `url.URL` that `getMessage` reads. -/
structure URL where
  Scheme : GoString
  Host : GoString
  deriving DecidableEq, Repr

/-- The parts of the Go standard library taken as parameters. -/
structure Stdlib where
  /-- Go `url.Parse`: `none` is the result `(nil, err)`. -/
  urlParse : GoString → Option URL
  /-- Go `strings.Map(unicode.ToUpper, s)`, the path of `strings.ToUpper` for a
  string with a non-ASCII byte. -/
  mapToUpper : GoString → GoString
  /-- Go `strings.Map(unicode.ToLower, s)`, the path of `strings.ToLower` for a
  string with a non-ASCII byte. -/
  mapToLower : GoString → GoString

/-! ## Data model (`Data` and `Message` of `main.go`) -/

/-- The struct `Data.User`. -/
structure UserInfo where
  Name : GoString := []
  /-- A Go map; a key that is absent reads as the empty string. -/
  AvatarUrls : List (GoString × GoString) := []
  DisplayName : GoString := []

/-- The struct `Data.Issue.Fields.Issuetype`. -/
structure IssuetypeInfo where
  IconURL : GoString := []
  Name : GoString := []

/-- The struct `Data.Issue.Fields`. -/
structure FieldsInfo where
  Issuetype : IssuetypeInfo := {}
  Summary : GoString := []

/-- The struct `Data.Issue`. -/
structure IssueInfo where
  Self : GoString := []
  Key : GoString := []
  Fields : FieldsInfo := {}

/-- The struct `Data.Comment`. -/
structure CommentInfo where
  Body : GoString := []

/-- An element of `Data.Changelog.Items`. -/
structure Item where
  Field : GoString := []
  FromString : GoString := []
  ToString : GoString := []

/-- The struct `Data.Changelog`. -/
structure ChangelogInfo where
  Items : List Item := []

/-- Data struct for JIRA JSON parsing.  The default of every field is its Go
zero value, so `{}` is the zero-valued `Data`. -/
structure Data where
  WebhookEvent : GoString := []
  User : UserInfo := {}
  Issue : IssueInfo := {}
  Comment : CommentInfo := {}
  Changelog : ChangelogInfo := {}

/-- Message structure for Mattermost JSON creation. -/
structure Message where
  Pretext : GoString := []
  Text : GoString := []
  Username : GoString := []
  IconURL : GoString := []
  Color : GoString := []
  deriving DecidableEq, Repr

/-! ## Standard-library functions -/

/-- Go `strings.HasPrefix`. -/
def HasPrefix (s pre : GoString) : Bool :=
  pre.isPrefixOf s

/-- Go `strings.Trim(s, cutset)` for a cutset of ASCII bytes: the leading and
trailing bytes that belong to the cutset are removed. -/
def Trim (s cutset : GoString) : GoString :=
  (s.rdropWhile fun b => cutset.contains b).dropWhile fun b => cutset.contains b

/-- The ASCII upper-casing of one byte. -/
def upperByte (b : Nat) : Nat :=
  if 97 ≤ b ∧ b ≤ 122 then b - 32 else b

/-- The ASCII lower-casing of one byte. -/
def lowerByte (b : Nat) : Nat :=
  if 65 ≤ b ∧ b ≤ 90 then b + 32 else b

/-- Go `strings.ToUpper`: bytewise on an ASCII-only string, the Unicode mapping of
the library otherwise. -/
def ToUpper (lib : Stdlib) (s : GoString) : GoString :=
  if s.all (fun b => b < 0x80) then s.map upperByte else lib.mapToUpper s

/-- Go `strings.ToLower`: bytewise on an ASCII-only string, the Unicode mapping of
the library otherwise. -/
def ToLower (lib : Stdlib) (s : GoString) : GoString :=
  if s.all (fun b => b < 0x80) then s.map lowerByte else lib.mapToLower s

/-- The text `fmt.Sprintf` appends for operands left over after the format is
consumed. -/
def extraOperands (args : List GoString) : GoString :=
  bytes "%!(EXTRA " ++
    (bytes ", ").intercalate (args.map fun a => bytes "string=" ++ a) ++ bytes ")"

/-- Go `fmt.Sprintf` for string operands and a format in which every `%` starts
the verb `%s` (the formats of `main.go`): each `%s` is replaced by the next
operand, which is not scanned, and every other byte is copied. -/
def Sprintf : GoString → List GoString → GoString
  | [], [] => []
  | [], a :: args => extraOperands (a :: args)
  | [c], [] => [c]
  | [c], a :: args => c :: extraOperands (a :: args)
  | c :: d :: rest, args =>
    if c = 37 ∧ d = 115 then
      match args with
      | a :: args => a ++ Sprintf rest args
      | [] => bytes "%!s(MISSING)" ++ Sprintf rest []
    else c :: Sprintf (d :: rest) args

/-! ## The replacer (`strings.NewReplacer`) -/

/-- The rule of `oldnew` applied at the start of `s`: the first pair, in
argument order, whose old string is a prefix of `s`. -/
def lookup (oldnew : List (GoString × GoString)) (s : GoString) :
    Option (GoString × GoString) :=
  oldnew.find? fun p => p.1.isPrefixOf s

/-- The scan of `Replacer.Replace` for a replacer without empty old strings,
over the rule selection `rule`.  `skip` is the number of input bytes still
covered by the last match.  At a position not covered, the selected rule
writes its new string and covers the bytes of its old string; without a rule
the byte is copied.  What a rule writes is never scanned. -/
def scan (rule : GoString → Option (GoString × GoString)) : Nat → GoString → GoString
  | _, [] => []
  | skip + 1, _ :: rest => scan rule skip rest
  | 0, c :: rest =>
    match rule (c :: rest) with
    | some p => p.2 ++ scan rule (p.1.length - 1) rest
    | none => c :: scan rule 0 rest

/-- Go `Replacer.Replace`. -/
def Replace (oldnew : List (GoString × GoString)) (s : GoString) : GoString :=
  scan (lookup oldnew) 0 s

/-- The rule a longest-match-wins replacer applies at the start of `s`: among
the pairs whose old string is a prefix of `s`, one with the longest old string
(the first such pair in argument order). -/
def lookupLongest (oldnew : List (GoString × GoString)) (s : GoString) :
    Option (GoString × GoString) :=
  (oldnew.filter fun p => p.1.isPrefixOf s).foldl
    (fun best p =>
      match best with
      | none => some p
      | some b => if b.1.length < p.1.length then some p else some b)
    none

/-- A single-pass longest-match-wins replacer over the table `oldnew`, the
replacer the specification words. -/
def ReplaceLongest (oldnew : List (GoString × GoString)) (s : GoString) : GoString :=
  scan (lookupLongest oldnew) 0 s

/-- The argument list of `wikiReplacer`, as pairs (old, new) in argument
order. -/
def wikiOldNew : List (GoString × GoString) :=
  [ (bytes ":)", bytes ":simple_smile:"),
    (bytes ":(", bytes ":worried:"),
    (bytes " :P", bytes ":stuck_out_tongue_winking_eye:"),
    (bytes " :D", bytes ":grinning:"),
    (bytes ";)", bytes ":wink:"),
    (bytes "(y)", bytes ":thumbsup:"),
    (bytes "(n)", bytes ":thumbsdown:"),
    (bytes "(i)", bytes ":information_source:"),
    (bytes "(/)", bytes ":white_check_mark:"),
    (bytes "(x)", bytes ":x:"),
    (bytes "(!)", bytes ":warning:"),
    (bytes "(-)", bytes ":no_entry:"),
    (bytes "(?)", bytes ":question:"),
    (bytes "(on)", bytes ":bulb:"),
    (bytes "(*)", bytes ":star:"),
    (bytes "----", bytes "---"),
    (bytes "\x7bcode\x7d", bytes "```"),
    (bytes "\x7bcode:xml\x7d", bytes "```xml "),
    (bytes "\x7bcode:java\x7d", bytes "```java "),
    (bytes "\x7bcode:javascript\x7d", bytes "```javascript "),
    (bytes "\x7bcode:sql\x7d", bytes "```sql "),
    (bytes "# ", bytes "1. "),
    (bytes "## ", bytes "  1. "),
    (bytes "### ", bytes "    1. "),
    (bytes "** ", bytes "  * "),
    (bytes "*** ", bytes "    * "),
    (bytes "-- ", bytes "  * "),
    (bytes "--- ", bytes "    * "),
    (bytes "h1.", bytes "#"),
    (bytes "h2.", bytes "##"),
    (bytes "h3.", bytes "###"),
    (bytes "h4.", bytes "####"),
    (bytes "h5.", bytes "#####"),
    (bytes "h6.", bytes "######") ]

/-- The call `wikiReplacer.Replace`: the markup translation. -/
def wikiReplace (s : GoString) : GoString :=
  Replace wikiOldNew s

/-! ## `getMessage` -/

/-- The map `JiraMultilineFields`, read at a key (an absent key reads false). -/
def JiraMultilineFields (name : GoString) : Bool :=
  [ bytes "Acceptance Criteria",
    bytes "Demo Script",
    bytes "Release Notes Text",
    bytes "Description",
    bytes "Deployment Notes" ].contains name

/-- The `switch data.WebhookEvent` of `getMessage`. -/
def action (webhookEvent : GoString) : GoString :=
  if webhookEvent = bytes "jira:issue_created" then bytes "created"
  else if webhookEvent = bytes "jira:issue_updated" then bytes "updated"
  else if webhookEvent = bytes "jira:issue_deleted" then bytes "deleted"
  else []

/-- The variable `comment` of `getMessage` ("Process new comment"). -/
def comment (data : Data) : GoString :=
  if data.Comment.Body.length > 0 then
    Sprintf (bytes "\nComment:\n%s\n") [wikiReplace data.Comment.Body]
  else []

/-- The expression
`strings.ToUpper(string(item.Field[0])) + item.Field[1:]`. -/
def itemName (lib : Stdlib) (field : GoString) : Except Panic GoString :=
  match field with
  | [] => .error .indexOutOfRange
  | b :: rest => .ok (ToUpper lib (encodeRune b) ++ rest)

/-- The text one iteration of the changelog loop appends to `changelog`. -/
def itemBlock (lib : Stdlib) (item : Item) : Except Panic GoString :=
  match itemName lib item.Field with
  | .error e => .error e
  | .ok name =>
    let fromString := if item.FromString = [] then bytes "None" else item.FromString
    if JiraMultilineFields name then
      .ok (Sprintf (bytes "\nChanged **%s**:\n\n---\n%s\n") [name, wikiReplace item.ToString])
    else
      .ok (Sprintf (bytes "\n%s: ~~%s~~ %s") [name, Trim fromString (bytes " "), item.ToString])

/-- The loop `for _, item := range data.Changelog.Items`, started with the
value `changelog` of the variable of that name. -/
def changelogLoop (lib : Stdlib) : List Item → GoString → Except Panic GoString
  | [], changelog => .ok changelog
  | item :: items, changelog =>
    match itemBlock lib item with
    | .error e => .error e
    | .ok block => changelogLoop lib items (changelog ++ block)

/-- The variable `changelog` of `getMessage` after "Process changelog". -/
def changelog (lib : Stdlib) (data : Data) : Except Panic GoString :=
  changelogLoop lib data.Changelog.Items []

/-- The variable `color` of `getMessage`. -/
def color (data : Data) : GoString :=
  if HasPrefix data.Issue.Key (bytes "SVD") then bytes "ff0000" else []

/-- The format of the message text. -/
def textFormat : GoString :=
  bytes "![user_icon](%s) [%s](%s://%s/secure/ViewProfile.jspa?name=%s) %s %s ![task_icon](%s) [%s](%s://%s/browse/%s) \"%s\"%s%s"

/-- The variable `text` of `getMessage`.  The statements run in source order:
the changelog loop first, then the operands of `Sprintf`, where `u.Scheme`
dereferences the result of `url.Parse`. -/
def text (lib : Stdlib) (data : Data) : Except Panic GoString :=
  match changelog lib data with
  | .error e => .error e
  | .ok changelog =>
    match lib.urlParse data.Issue.Self with
    | none => .error .nilDereference
    | some u =>
      .ok (Sprintf textFormat
        [ (data.User.AvatarUrls.lookup (bytes "16x16")).getD [],
          data.User.DisplayName,
          u.Scheme,
          u.Host,
          data.User.Name,
          action data.WebhookEvent,
          ToLower lib data.Issue.Fields.Issuetype.Name,
          data.Issue.Fields.Issuetype.IconURL,
          data.Issue.Key,
          u.Scheme,
          u.Host,
          data.Issue.Key,
          data.Issue.Fields.Summary,
          changelog,
          comment data ])

/-- The value `message` of `getMessage`. -/
def message (lib : Stdlib) (data : Data) : Except Panic Message :=
  match text lib data with
  | .error e => .error e
  | .ok text =>
    .ok { Color := color data,
          Text := text,
          Username := bytes "JIRA",
          IconURL := bytes "https://raw.githubusercontent.com/hhommersom/mattermost-jira/master/logo-02.png" }

/-- The width of the UTF-8 sequence at the start of `s`, as Go
`utf8.DecodeRuneInString` accepts it: `none` when the bytes at the start are
not a valid sequence (the result `RuneError` of width 1).  The second byte of
a sequence is bounded by the first (no overlong form, no surrogate, nothing
above U+10FFFF); the later bytes lie in 0x80..0xBF. -/
def runeLen : GoString → Option Nat
  | [] => none
  | b0 :: rest =>
    if b0 < 0x80 then some 1
    else if 0xC2 ≤ b0 ∧ b0 ≤ 0xDF then
      match rest with
      | b1 :: _ => if 0x80 ≤ b1 ∧ b1 ≤ 0xBF then some 2 else none
      | [] => none
    else if 0xE0 ≤ b0 ∧ b0 ≤ 0xEF then
      match rest with
      | b1 :: b2 :: _ =>
        if (if b0 = 0xE0 then 0xA0 else 0x80) ≤ b1 ∧ b1 ≤ (if b0 = 0xED then 0x9F else 0xBF) ∧
            0x80 ≤ b2 ∧ b2 ≤ 0xBF then some 3
        else none
      | _ => none
    else if 0xF0 ≤ b0 ∧ b0 ≤ 0xF4 then
      match rest with
      | b1 :: b2 :: b3 :: _ =>
        if (if b0 = 0xF0 then 0x90 else 0x80) ≤ b1 ∧ b1 ≤ (if b0 = 0xF4 then 0x8F else 0xBF) ∧
            0x80 ≤ b2 ∧ b2 ≤ 0xBF ∧ 0x80 ≤ b3 ∧ b3 ≤ 0xBF then some 4
        else none
      | _ => none
    else none

/-- The scan of `encoding/json` over a string value, read back: a valid UTF-8
sequence is kept and a byte that starts none is replaced by U+FFFD (the bytes
EF BF BD).  `keep` is the number of bytes of the current sequence still to
copy. -/
def toValidUTF8From : Nat → GoString → GoString
  | _, [] => []
  | keep + 1, b :: rest => b :: toValidUTF8From keep rest
  | 0, b :: rest =>
    match runeLen (b :: rest) with
    | some n => b :: toValidUTF8From (n - 1) rest
    | none => 0xEF :: 0xBF :: 0xBD :: toValidUTF8From 0 rest

/-- The string a JSON decoder reads back from the encoding `json.Marshal`
gives a Go string: the string coerced to valid UTF-8.  (The escapes of the
encoding denote the bytes they replace; the coercion is the one change.) -/
def toValidUTF8 (s : GoString) : GoString :=
  toValidUTF8From 0 s

/-- Go `utf8.ValidString`, by the same scan: every byte belongs to a valid
sequence. -/
def validFrom : Nat → GoString → Bool
  | _, [] => true
  | keep + 1, _ :: rest => validFrom keep rest
  | 0, b :: rest =>
    match runeLen (b :: rest) with
    | some n => validFrom (n - 1) rest
    | none => false

/-- Go `utf8.ValidString`. -/
def ValidString (s : GoString) : Bool :=
  validFrom 0 s

/-- Go `json.Marshal` of a `Message`, as the members of the JSON object the
bytes denote, in order: the member name and the string value a JSON decoder
reads back.  A member tagged `omitempty` is left out when its string is
empty, and every string value is coerced to valid UTF-8. -/
def Marshal (m : Message) : List (GoString × GoString) :=
  (if m.Pretext = [] then [] else [(bytes "pretext", toValidUTF8 m.Pretext)]) ++
  [(bytes "text", toValidUTF8 m.Text), (bytes "username", toValidUTF8 m.Username),
    (bytes "icon_url", toValidUTF8 m.IconURL)] ++
  (if m.Color = [] then [] else [(bytes "color", toValidUTF8 m.Color)])

/-- The function `getMessage`: the marshalled message, or the panic that
aborts the request. -/
def getMessage (lib : Stdlib) (data : Data) : Except Panic (List (GoString × GoString)) :=
  match message lib data with
  | .error e => .error e
  | .ok m => .ok (Marshal m)

/-! ## Worked inputs -/

/-- The library, tabulated at the inputs of the worked examples.  `url.Parse`
gives scheme "https" and host "jira.example.com" on the issue URL of the
specification and the empty URL on the empty string, and it rejects
"://jira.example.com" ("missing protocol scheme"); no other URL is used, and
the table answers `none` there.  The Unicode mappings are reached by
non-ASCII strings only; the one the examples pass is the capital letter "Ã",
which Go leaves as it is, and the table leaves every such string as it is. -/
def exampleLib : Stdlib where
  urlParse s :=
    if s = bytes "https://jira.example.com/rest/api/2/issue/10001" then
      some { Scheme := bytes "https", Host := bytes "jira.example.com" }
    else if s = [] then some { Scheme := [], Host := [] }
    else none
  mapToUpper s := s
  mapToLower s := s

/-- The end-to-end event of the specification. -/
def janeEvent : Data :=
  { WebhookEvent := bytes "jira:issue_created",
    User := { Name := bytes "jane", DisplayName := bytes "Jane Doe",
              AvatarUrls := [(bytes "16x16", bytes "http://x/a.png")] },
    Issue := { Self := bytes "https://jira.example.com/rest/api/2/issue/10001",
               Key := bytes "ABC-1",
               Fields := { Issuetype := { Name := bytes "Bug", IconURL := bytes "http://x/b.png" },
                           Summary := bytes "Crash on load" } } }

/-- An event whose issue URL `url.Parse` rejects (it starts with a colon). -/
def badUrlEvent : Data :=
  { WebhookEvent := bytes "jira:issue_updated",
    Issue := { Self := bytes "://jira.example.com", Key := bytes "ABC-1" } }

/-- An event with one change whose `field` member is missing from the JSON
document, decoded to the zero value. -/
def missingFieldEvent : Data :=
  { WebhookEvent := bytes "jira:issue_updated",
    Changelog := { Items := [{ FromString := bytes "a", ToString := bytes "b" }] } }

/-- The change `status` of the specification. -/
def statusChange : Item :=
  { Field := bytes "status", FromString := [], ToString := bytes "Done" }

/-- The change `description` of the specification. -/
def descriptionChange : Item :=
  { Field := bytes "description", FromString := bytes "x",
    ToString := bytes "\x7bcode\x7da\x7bcode\x7d" }

/-- An event on an issue of the project `SVD`. -/
def svdEvent : Data :=
  { WebhookEvent := bytes "jira:issue_updated",
    Issue := { Key := bytes "SVD-7" },
    Changelog := { Items := [statusChange] } }

/-- The members of the payload of `svdEvent`. -/
def svdPayload : List (GoString × GoString) :=
  [ (bytes "text", bytes "![user_icon]() [](:///secure/ViewProfile.jspa?name=) updated  ![task_icon]() [SVD-7](:///browse/SVD-7) \"\"\nStatus: ~~None~~ Done"),
    (bytes "username", bytes "JIRA"),
    (bytes "icon_url", bytes "https://raw.githubusercontent.com/hhommersom/mattermost-jira/master/logo-02.png"),
    (bytes "color", bytes "ff0000") ]

/-- A table in which an old string is a prefix of a later one. -/
def overlappingOldNew : List (GoString × GoString) :=
  [(bytes "a", bytes "1"), (bytes "ab", bytes "2")]

/-- An event with a change of the field "état", whose first letter is not
ASCII. -/
def accentEvent : Data :=
  { WebhookEvent := bytes "jira:issue_updated",
    Issue := { Key := bytes "ABC-1" },
    Changelog := { Items := [{ Field := bytes "état", ToString := bytes "x" }] } }

/-- The text composed for `accentEvent`: the name of the change is "Ã", the
stray second byte of "é", and "tat". -/
def accentBody : GoString :=
  bytes "![user_icon]() [](:///secure/ViewProfile.jspa?name=) updated  ![task_icon]() [ABC-1](:///browse/ABC-1) \"\"\nÃ" ++
    [0xA9] ++ bytes "tat: ~~None~~ x"

/-- The members of the payload of `accentEvent`: U+FFFD stands where the
text has the stray byte. -/
def accentPayload : List (GoString × GoString) :=
  [ (bytes "text", bytes "![user_icon]() [](:///secure/ViewProfile.jspa?name=) updated  ![task_icon]() [ABC-1](:///browse/ABC-1) \"\"\nÃ\uFFFDtat: ~~None~~ x"),
    (bytes "username", bytes "JIRA"),
    (bytes "icon_url", bytes "https://raw.githubusercontent.com/hhommersom/mattermost-jira/master/logo-02.png") ]

/-! ## The replacer: lemmas -/

/-- No old string of the table is a prefix of the old string of another pair. -/
def PrefixFree (oldnew : List (GoString × GoString)) : Prop :=
  ∀ p ∈ oldnew, ∀ q ∈ oldnew, p.1 <+: q.1 → p = q

instance (oldnew : List (GoString × GoString)) : Decidable (PrefixFree oldnew) := by
  unfold PrefixFree; infer_instance

theorem wikiOldNew_prefixFree : PrefixFree wikiOldNew := by
  decide!

theorem wikiOldNew_old_ne_nil : ∀ p ∈ wikiOldNew, p.1 ≠ [] := by
  decide!

theorem scan_skip (rule : GoString → Option (GoString × GoString)) (xs rest : GoString) :
    scan rule xs.length (xs ++ rest) = scan rule 0 rest := by
  induction xs with
  | nil => rfl
  | cons x xs ih =>
    simpa [scan] using ih

theorem lookup_eq_some_mem {oldnew : List (GoString × GoString)} {s : GoString}
    {p : GoString × GoString} (h : lookup oldnew s = some p) : p ∈ oldnew ∧ p.1 <+: s := by
  unfold lookup at h
  refine ⟨List.mem_of_find?_eq_some h, ?_⟩
  have := List.find?_some h
  simpa [List.isPrefixOf_iff_prefix] using this

theorem lookup_eq_none_iff {oldnew : List (GoString × GoString)} {s : GoString} :
    lookup oldnew s = none ↔ ∀ p ∈ oldnew, ¬ p.1 <+: s := by
  unfold lookup
  simp [List.find?_eq_none]

/-- In a prefix-free table the rules that match at a position coincide. -/
theorem match_unique {oldnew : List (GoString × GoString)} (hpf : PrefixFree oldnew)
    {p q : GoString × GoString} (hp : p ∈ oldnew) (hq : q ∈ oldnew) {s : GoString}
    (hps : p.1 <+: s) (hqs : q.1 <+: s) : p = q := by
  rcases Nat.le_total p.1.length q.1.length with hle | hle
  · exact hpf p hp q hq (List.prefix_of_prefix_length_le hps hqs hle)
  · exact (hpf q hq p hp (List.prefix_of_prefix_length_le hqs hps hle)).symm

theorem lookup_old_append {oldnew : List (GoString × GoString)} (hpf : PrefixFree oldnew)
    {p : GoString × GoString} (hp : p ∈ oldnew) (rest : GoString) :
    lookup oldnew (p.1 ++ rest) = some p := by
  cases h : lookup oldnew (p.1 ++ rest) with
  | none =>
    exact absurd (List.prefix_append p.1 rest) (lookup_eq_none_iff.mp h p hp)
  | some q =>
    obtain ⟨hq, hqs⟩ := lookup_eq_some_mem h
    rw [match_unique hpf hq hp hqs (List.prefix_append p.1 rest)]

theorem Replace_old_append {oldnew : List (GoString × GoString)} (hpf : PrefixFree oldnew)
    (hne : ∀ p ∈ oldnew, p.1 ≠ []) {p : GoString × GoString} (hp : p ∈ oldnew)
    (rest : GoString) : Replace oldnew (p.1 ++ rest) = p.2 ++ Replace oldnew rest := by
  have hl := lookup_old_append hpf hp rest
  unfold Replace
  cases hp1 : p.1 with
  | nil => exact absurd hp1 (hne p hp)
  | cons c tl =>
    rw [hp1] at hl
    simp only [List.cons_append] at hl ⊢
    rw [scan, hl]
    simp only [hp1, List.length_cons, Nat.add_sub_cancel]
    rw [scan_skip]

theorem Replace_cons_of_no_match (oldnew : List (GoString × GoString)) (c : Nat)
    (rest : GoString) (h : ∀ p ∈ oldnew, ¬ p.1 <+: c :: rest) :
    Replace oldnew (c :: rest) = c :: Replace oldnew rest := by
  unfold Replace
  rw [scan, lookup_eq_none_iff.mpr h]

theorem lookupLongest_eq_lookup {oldnew : List (GoString × GoString)} (hpf : PrefixFree oldnew)
    (s : GoString) : lookupLongest oldnew s = lookup oldnew s := by
  unfold lookupLongest lookup
  rw [← List.filter_head?]
  have hall : ∀ p ∈ oldnew.filter (fun p => p.1.isPrefixOf s),
      ∀ q ∈ oldnew.filter (fun p => p.1.isPrefixOf s), p = q := by
    intro p hp q hq
    simp only [List.mem_filter, List.isPrefixOf_iff_prefix] at hp hq
    exact match_unique hpf hp.1 hq.1 hp.2 hq.2
  generalize oldnew.filter (fun p => p.1.isPrefixOf s) = m at hall
  cases m with
  | nil => rfl
  | cons a m =>
    simp only [List.foldl_cons, List.head?_cons]
    have hm : ∀ q ∈ m, q = a := fun q hq =>
      (hall a (List.mem_cons_self a m) q (List.mem_cons_of_mem a hq)).symm
    clear hall
    induction m with
    | nil => rfl
    | cons b m ih =>
      have hb : b = a := hm b (List.mem_cons_self b m)
      subst hb
      simp only [List.foldl_cons, Nat.lt_irrefl, if_false]
      exact ih fun q hq => hm q (List.mem_cons_of_mem b hq)

/-! ## The formats of `getMessage`, evaluated -/

theorem Sprintf_comment (a : GoString) :
    Sprintf (bytes "\nComment:\n%s\n") [a] = bytes "\nComment:\n" ++ a ++ bytes "\n" := by
  have h : Sprintf (bytes "\nComment:\n%s\n") [a] = bytes "\nComment:\n" ++ (a ++ bytes "\n") := rfl
  rw [h, List.append_assoc]

theorem Sprintf_multiline (a b : GoString) :
    Sprintf (bytes "\nChanged **%s**:\n\n---\n%s\n") [a, b] =
      bytes "\nChanged **" ++ a ++ bytes "**:\n\n---\n" ++ b ++ bytes "\n" := by
  have h : Sprintf (bytes "\nChanged **%s**:\n\n---\n%s\n") [a, b] =
      bytes "\nChanged **" ++ (a ++ (bytes "**:\n\n---\n" ++ (b ++ bytes "\n"))) := rfl
  rw [h]
  simp only [List.append_assoc]

theorem Sprintf_inline (a b c : GoString) :
    Sprintf (bytes "\n%s: ~~%s~~ %s") [a, b, c] =
      bytes "\n" ++ a ++ bytes ": ~~" ++ b ++ bytes "~~ " ++ c := by
  have h : Sprintf (bytes "\n%s: ~~%s~~ %s") [a, b, c] =
      bytes "\n" ++ (a ++ (bytes ": ~~" ++ (b ++ (bytes "~~ " ++ (c ++ []))))) := rfl
  rw [h]
  simp only [List.append_assoc, List.append_nil]

set_option maxRecDepth 100000 in
theorem Sprintf_textFormat (a1 a2 a3 a4 a5 a6 a7 a8 a9 a10 a11 a12 a13 a14 a15 : GoString) :
    Sprintf textFormat [a1, a2, a3, a4, a5, a6, a7, a8, a9, a10, a11, a12, a13, a14, a15] =
      bytes "![user_icon](" ++ a1 ++ bytes ") [" ++ a2 ++ bytes "](" ++ a3 ++ bytes "://" ++ a4 ++
      bytes "/secure/ViewProfile.jspa?name=" ++ a5 ++ bytes ") " ++ a6 ++ bytes " " ++ a7 ++
      bytes " ![task_icon](" ++ a8 ++ bytes ") [" ++ a9 ++ bytes "](" ++ a10 ++ bytes "://" ++ a11 ++
      bytes "/browse/" ++ a12 ++ bytes ") \"" ++ a13 ++ bytes "\"" ++ a14 ++ a15 := by
  have h : Sprintf textFormat [a1, a2, a3, a4, a5, a6, a7, a8, a9, a10, a11, a12, a13, a14, a15] =
      bytes "![user_icon](" ++ (a1 ++ (bytes ") [" ++ (a2 ++ (bytes "](" ++ (a3 ++ (bytes "://" ++ (a4 ++
      (bytes "/secure/ViewProfile.jspa?name=" ++ (a5 ++ (bytes ") " ++ (a6 ++ (bytes " " ++ (a7 ++
      (bytes " ![task_icon](" ++ (a8 ++ (bytes ") [" ++ (a9 ++ (bytes "](" ++ (a10 ++ (bytes "://" ++ (a11 ++
      (bytes "/browse/" ++ (a12 ++ (bytes ") \"" ++ (a13 ++ (bytes "\"" ++ (a14 ++
      (a15 ++ [])))))))))))))))))))))))))))) := rfl
  rw [h]
  simp only [List.append_assoc, List.append_nil]

/-! ## `strings.Trim` -/

theorem rdropWhile_append_rtakeWhile (p : Nat → Bool) (l : List Nat) :
    l.rdropWhile p ++ l.rtakeWhile p = l := by
  unfold List.rdropWhile List.rtakeWhile
  rw [← List.reverse_append, List.takeWhile_append_dropWhile, List.reverse_reverse]

theorem eq_replicate_of_all (p : Nat → Bool) (c : Nat) (hp : ∀ b, p b = true → b = c) (l : List Nat)
    (h : ∀ b ∈ l, p b = true) : l = List.replicate l.length c :=
  List.eq_replicate_iff.mpr ⟨rfl, fun b hb => hp b (h b hb)⟩

/-- The value `Trim s " "` is `s` without its leading and trailing spaces. -/
theorem Trim_space (s : GoString) :
    ∃ i j, s = List.replicate i 32 ++ Trim s (bytes " ") ++ List.replicate j 32 ∧
      (Trim s (bytes " ")).head? ≠ some 32 ∧ (Trim s (bytes " ")).getLast? ≠ some 32 := by
  have hb : bytes " " = [32] := rfl
  have hp : ∀ b : Nat, (fun b => (bytes " ").contains b) b = true → b = 32 := by
    intro b h
    simpa [hb] using h
  generalize hpd : (fun b : Nat => (bytes " ").contains b) = p at hp
  have hT : Trim s (bytes " ") = (s.rdropWhile p).dropWhile p := by rw [← hpd]; rfl
  have hp32 : p 32 = true := by rw [← hpd]; rfl
  refine ⟨((s.rdropWhile p).takeWhile p).length, (s.rtakeWhile p).length, ?_, ?_, ?_⟩
  · rw [hT, ← eq_replicate_of_all p 32 hp _ (fun b hb => List.mem_takeWhile_imp hb),
      ← eq_replicate_of_all p 32 hp _ (fun b hb => List.mem_rtakeWhile_imp hb),
      List.takeWhile_append_dropWhile, rdropWhile_append_rtakeWhile]
  · rw [hT]
    intro h
    have := List.head?_dropWhile_not p (s.rdropWhile p)
    rw [h] at this
    simp [hp32] at this
  · rw [hT]
    intro h
    have hne : (s.rdropWhile p).dropWhile p ≠ [] := by
      intro h0; rw [h0] at h; simp at h
    have hne2 : s.rdropWhile p ≠ [] := by
      intro h0; rw [h0] at hne; simp at hne
    have hl := (List.dropWhile_suffix p (l := s.rdropWhile p)).getLast hne
    have := List.rdropWhile_last_not p s hne2
    rw [List.getLast?_eq_getLast _ hne] at h
    have h32 : ((s.rdropWhile p).dropWhile p).getLast hne = 32 := by simpa using h
    rw [← hl, h32] at this
    exact this hp32

/-! ## The changelog loop: lemmas -/

theorem itemName_ok_of_ne_nil (lib : Stdlib) {field : GoString} (h : field ≠ []) :
    ∃ name, itemName lib field = .ok name := by
  cases field with
  | nil => exact absurd rfl h
  | cons b rest => exact ⟨_, rfl⟩

theorem itemBlock_ok_of_ne_nil (lib : Stdlib) {item : Item} (h : item.Field ≠ []) :
    ∃ block, itemBlock lib item = .ok block := by
  obtain ⟨name, hn⟩ := itemName_ok_of_ne_nil lib h
  unfold itemBlock
  rw [hn]
  dsimp only
  split <;> exact ⟨_, rfl⟩

theorem itemBlock_error_of_nil (lib : Stdlib) {item : Item} (h : item.Field = []) :
    itemBlock lib item = .error .indexOutOfRange := by
  unfold itemBlock itemName
  rw [h]

theorem changelogLoop_error_of_nil (lib : Stdlib) :
    ∀ (items : List Item) (acc : GoString), (∃ item ∈ items, item.Field = []) →
      changelogLoop lib items acc = .error .indexOutOfRange
  | [], _, h => by
    obtain ⟨item, hi, _⟩ := h
    cases hi
  | item :: items, acc, h => by
    by_cases hf : item.Field = []
    · rw [changelogLoop, itemBlock_error_of_nil lib hf]
    · obtain ⟨block, hb⟩ := itemBlock_ok_of_ne_nil lib hf
      rw [changelogLoop, hb]
      apply changelogLoop_error_of_nil lib items
      obtain ⟨it, hi, hit⟩ := h
      rcases List.mem_cons.mp hi with rfl | hi
      · exact absurd hit hf
      · exact ⟨it, hi, hit⟩

theorem changelogLoop_blocks (lib : Stdlib) :
    ∀ items : List Item, (∀ item ∈ items, item.Field ≠ []) →
      ∃ blocks, List.Forall₂ (fun item block => itemBlock lib item = .ok block) items blocks ∧
        ∀ acc, changelogLoop lib items acc = .ok (acc ++ blocks.flatten)
  | [], _ => ⟨[], List.Forall₂.nil, fun acc => by simp [changelogLoop]⟩
  | item :: items, h => by
    obtain ⟨block, hb⟩ := itemBlock_ok_of_ne_nil lib (h item (List.mem_cons_self item items))
    obtain ⟨blocks, hbs, hloop⟩ :=
      changelogLoop_blocks lib items (fun it hi => h it (List.mem_cons_of_mem item hi))
    refine ⟨block :: blocks, List.Forall₂.cons hb hbs, fun acc => ?_⟩
    rw [changelogLoop, hb]
    simp only [hloop, List.flatten_cons, List.append_assoc]

theorem changelogLoop_split (lib : Stdlib) :
    ∀ (xs ys : List Item) (acc : GoString),
      changelogLoop lib (xs ++ ys) acc =
        match changelogLoop lib xs acc with
        | .ok r => changelogLoop lib ys r
        | .error e => .error e
  | [], _, _ => rfl
  | x :: xs, ys, acc => by
    rw [List.cons_append, changelogLoop, changelogLoop]
    cases itemBlock lib x with
    | error e => rfl
    | ok block => exact changelogLoop_split lib xs ys (acc ++ block)

/-- When the URL parses and every change names a field, `getMessage` returns
a payload. -/
theorem getMessage_ok (lib : Stdlib) (data : Data) (u : URL)
    (hu : lib.urlParse data.Issue.Self = some u)
    (hf : ∀ item ∈ data.Changelog.Items, item.Field ≠ []) :
    ∃ payload, getMessage lib data = .ok payload := by
  obtain ⟨blocks, -, hloop⟩ := changelogLoop_blocks lib data.Changelog.Items hf
  unfold getMessage message text changelog
  rw [hloop]
  simp only [hu]
  exact ⟨_, rfl⟩

/-! ## The message text -/

/-- C1: for every event whose issue URL parses to scheme `S` and host `H`, and
whose changelog renders to `changelogBlock`, the composed text is exactly the
user icon, the user link, the action, the lower-cased issue type, the task
icon, the issue link and the quoted summary, followed by the changelog block
and then the comment block. -/
theorem text_format (lib : Stdlib) (data : Data) (S H changelogBlock : GoString)
    (hu : lib.urlParse data.Issue.Self = some { Scheme := S, Host := H })
    (hc : changelog lib data = .ok changelogBlock) :
    text lib data = .ok
      (bytes "![user_icon](" ++ (data.User.AvatarUrls.lookup (bytes "16x16")).getD [] ++
        bytes ") [" ++ data.User.DisplayName ++ bytes "](" ++ S ++ bytes "://" ++ H ++
        bytes "/secure/ViewProfile.jspa?name=" ++ data.User.Name ++ bytes ") " ++
        action data.WebhookEvent ++ bytes " " ++
        ToLower lib data.Issue.Fields.Issuetype.Name ++
        bytes " ![task_icon](" ++ data.Issue.Fields.Issuetype.IconURL ++ bytes ") [" ++
        data.Issue.Key ++ bytes "](" ++ S ++ bytes "://" ++ H ++ bytes "/browse/" ++
        data.Issue.Key ++ bytes ") \"" ++ data.Issue.Fields.Summary ++ bytes "\"" ++
        changelogBlock ++ comment data) := by
  unfold text
  rw [hc]
  simp only [hu]
  rw [Sprintf_textFormat]

/-- The end-to-end event of the specification yields exactly its body. -/
theorem text_format_witness :
    text exampleLib janeEvent = .ok (bytes "![user_icon](http://x/a.png) [Jane Doe](https://jira.example.com/secure/ViewProfile.jspa?name=jane) created bug ![task_icon](http://x/b.png) [ABC-1](https://jira.example.com/browse/ABC-1) \"Crash on load\"") :=
  (text_format exampleLib janeEvent (bytes "https") (bytes "jira.example.com") []
    (by decide!) (by decide!)).trans (by decide!)

/-- C2 (the code diverges): for an event whose issue URL `url.Parse` rejects,
`getMessage` returns no message: it panics, on the nil URL when the changelog
rendered. -/
theorem getMessage_unparsable_url (lib : Stdlib) (data : Data)
    (hu : lib.urlParse data.Issue.Self = none) :
    (∃ e, getMessage lib data = .error e) ∧
      (∀ changelogBlock, changelog lib data = .ok changelogBlock →
        getMessage lib data = .error .nilDereference) := by
  unfold getMessage message text
  cases changelog lib data with
  | error e => exact ⟨⟨e, rfl⟩, fun _ h => by cases h⟩
  | ok c =>
    simp only [hu]
    exact ⟨⟨_, rfl⟩, fun _ _ => trivial⟩

/-- On `badUrlEvent` the request is aborted by the nil dereference. -/
theorem getMessage_unparsable_url_witness :
    getMessage exampleLib badUrlEvent = .error .nilDereference :=
  (getMessage_unparsable_url exampleLib badUrlEvent (by decide!)).2 [] (by decide!)

/-! ## The changelog -/

/-- C3 (the code diverges): a change whose field name is the empty string makes
the changelog loop, and with it `getMessage`, panic with an index out of
range. -/
theorem changelog_empty_field (lib : Stdlib) (data : Data) (item : Item)
    (hi : item ∈ data.Changelog.Items) (hf : item.Field = []) :
    changelog lib data = .error .indexOutOfRange ∧
      getMessage lib data = .error .indexOutOfRange := by
  have h : changelog lib data = .error .indexOutOfRange :=
    changelogLoop_error_of_nil lib data.Changelog.Items [] ⟨item, hi, hf⟩
  refine ⟨h, ?_⟩
  unfold getMessage message text
  rw [h]

/-- On `missingFieldEvent` the request is aborted by the index out of range. -/
theorem changelog_empty_field_witness :
    changelog exampleLib missingFieldEvent = .error .indexOutOfRange ∧
      getMessage exampleLib missingFieldEvent = .error .indexOutOfRange :=
  changelog_empty_field exampleLib missingFieldEvent
    { FromString := bytes "a", ToString := bytes "b" } (List.mem_singleton.mpr rfl) rfl

/-- C4 (the code diverges): on the field name "état" the name is built from the
first byte, not the first character: it is the upper-casing of "Ã" followed by
the second byte of "é" and by "tat", which is not "État" whatever the Unicode
mapping of the library. -/
theorem itemName_non_ascii (lib : Stdlib) :
    itemName lib (bytes "état") = .ok (lib.mapToUpper (bytes "Ã") ++ [0xA9] ++ bytes "tat") ∧
      itemName lib (bytes "état") ≠ .ok (bytes "État") := by
  have h : itemName lib (bytes "état") =
      .ok (lib.mapToUpper (bytes "Ã") ++ [0xA9] ++ bytes "tat") := by
    rw [List.append_assoc]
    rfl
  refine ⟨h, ?_⟩
  rw [h]
  intro hc
  have hc := Except.ok.inj hc
  have e1 : bytes "tat" = [116, 97, 116] := by decide!
  have e2 : bytes "État" = [195, 137, 116, 97, 116] := by decide!
  rw [e1, e2] at hc
  generalize lib.mapToUpper (bytes "Ã") = u at hc
  rcases u with _ | ⟨x, _ | ⟨y, u⟩⟩
  · simp at hc
  · simp at hc
  · have hl := congrArg List.length hc
    simp at hl

/-- C5: a change whose normalized name is not a multiline field is rendered as
a newline, the name, a colon, the previous value struck through, and the new
value as it is; the previous value is "None" when empty and has its leading and
trailing spaces removed. -/
theorem itemBlock_inline (lib : Stdlib) (item : Item) (name : GoString)
    (hn : itemName lib item.Field = .ok name) (hm : JiraMultilineFields name = false) :
    itemBlock lib item =
        .ok (bytes "\n" ++ name ++ bytes ": ~~" ++
          Trim (if item.FromString = [] then bytes "None" else item.FromString) (bytes " ") ++
          bytes "~~ " ++ item.ToString) ∧
      ∃ i j,
        (if item.FromString = [] then bytes "None" else item.FromString) =
          List.replicate i 32 ++
            Trim (if item.FromString = [] then bytes "None" else item.FromString) (bytes " ") ++
            List.replicate j 32 ∧
        (Trim (if item.FromString = [] then bytes "None" else item.FromString)
          (bytes " ")).head? ≠ some 32 ∧
        (Trim (if item.FromString = [] then bytes "None" else item.FromString)
          (bytes " ")).getLast? ≠ some 32 := by
  refine ⟨?_, Trim_space _⟩
  unfold itemBlock
  rw [hn]
  simp only [hm, Bool.false_eq_true, if_false]
  rw [Sprintf_inline]

/-- The change `status` of the specification renders with "None" struck
through. -/
theorem itemBlock_inline_witness :
    itemBlock exampleLib statusChange = .ok (bytes "\nStatus: ~~None~~ Done") :=
  (itemBlock_inline exampleLib statusChange (bytes "Status") (by decide!) (by decide!)).1.trans
    (by decide!)

/-- C6: a change whose normalized name is a multiline field is rendered as the
line "Changed **name**:", an empty line, a rule, and the new value translated
by the replacer, each ended by a newline. -/
theorem itemBlock_multiline (lib : Stdlib) (item : Item) (name : GoString)
    (hn : itemName lib item.Field = .ok name) (hm : JiraMultilineFields name = true) :
    itemBlock lib item =
      .ok (bytes "\nChanged **" ++ name ++ bytes "**:\n\n---\n" ++
        wikiReplace item.ToString ++ bytes "\n") := by
  unfold itemBlock
  rw [hn]
  simp only [hm, if_true]
  rw [Sprintf_multiline]

/-- The change `description` of the specification renders as a block with the
fence markers and without the source token. -/
theorem itemBlock_multiline_witness :
    itemBlock exampleLib descriptionChange =
        .ok (bytes "\nChanged **Description**:\n\n---\n```a```\n") ∧
      bytes "```" <:+: bytes "\nChanged **Description**:\n\n---\n```a```\n" ∧
      ¬ bytes "\x7bcode\x7d" <:+: bytes "\nChanged **Description**:\n\n---\n```a```\n" :=
  ⟨(itemBlock_multiline exampleLib descriptionChange (bytes "Description")
      (by decide!) (by decide!)).trans (by decide!),
    by decide!, by decide!⟩

/-- C7: the changelog of no change is empty, and over changes that all name a
field the changelog of a concatenation is the concatenation of the changelogs;
the changelog is the concatenation, in input order, of the blocks of its
changes, each computed from its own change. -/
theorem changelogLoop_append (lib : Stdlib) (xs ys : List Item)
    (h : ∀ item ∈ xs ++ ys, item.Field ≠ []) :
    changelogLoop lib [] [] = .ok [] ∧
      (∃ a b, changelogLoop lib xs [] = .ok a ∧ changelogLoop lib ys [] = .ok b ∧
        changelogLoop lib (xs ++ ys) [] = .ok (a ++ b)) ∧
      ∃ blocks, List.Forall₂ (fun item block => itemBlock lib item = .ok block) (xs ++ ys) blocks ∧
        changelogLoop lib (xs ++ ys) [] = .ok blocks.flatten := by
  obtain ⟨bx, -, hx⟩ :=
    changelogLoop_blocks lib xs (fun it hi => h it (List.mem_append_left ys hi))
  obtain ⟨bys, -, hy⟩ :=
    changelogLoop_blocks lib ys (fun it hi => h it (List.mem_append_right xs hi))
  obtain ⟨bxy, hfxy, hxy⟩ := changelogLoop_blocks lib (xs ++ ys) h
  refine ⟨rfl, ⟨bx.flatten, bys.flatten, ?_, ?_, ?_⟩, bxy, hfxy, ?_⟩
  · simpa using hx []
  · simpa using hy []
  · rw [changelogLoop_split, hx]
    simpa using hy bx.flatten
  · simpa using hxy []

/-- The changelog of the changes `status` and `description` is the block of
the first followed by the block of the second. -/
theorem changelogLoop_append_witness :
    changelogLoop exampleLib ([statusChange] ++ [descriptionChange]) [] =
      .ok (bytes "\nStatus: ~~None~~ Done" ++
        bytes "\nChanged **Description**:\n\n---\n```a```\n") := by
  obtain ⟨-, ⟨a, b, ha, hb, hab⟩, -⟩ :=
    changelogLoop_append exampleLib [statusChange] [descriptionChange] (by
      intro item hi
      simp only [List.singleton_append, List.mem_cons, List.mem_singleton, List.not_mem_nil,
        or_false] at hi
      rcases hi with rfl | rfl <;> decide!)
  have ea : changelogLoop exampleLib [statusChange] [] =
      .ok (bytes "\nStatus: ~~None~~ Done") := by decide!
  have eb : changelogLoop exampleLib [descriptionChange] [] =
      .ok (bytes "\nChanged **Description**:\n\n---\n```a```\n") := by decide!
  rw [ea] at ha
  rw [eb] at hb
  cases ha
  cases hb
  exact hab

/-! ## The payload -/

theorem toValidUTF8From_of_valid :
    ∀ (s : GoString) (keep : Nat), validFrom keep s = true → toValidUTF8From keep s = s
  | [], _, _ => by cases ‹Nat› <;> rfl
  | b :: rest, keep + 1, h => by
    rw [validFrom] at h
    rw [toValidUTF8From, toValidUTF8From_of_valid rest keep h]
  | b :: rest, 0, h => by
    rw [validFrom] at h
    rw [toValidUTF8From]
    cases hn : runeLen (b :: rest) with
    | none => rw [hn] at h; cases h
    | some n =>
      rw [hn] at h
      simp only at h ⊢
      rw [toValidUTF8From_of_valid rest (n - 1) h]

/-- The coercion leaves a valid UTF-8 string as it is. -/
theorem toValidUTF8_of_valid (s : GoString) (h : ValidString s = true) : toValidUTF8 s = s :=
  toValidUTF8From_of_valid s 0 h

theorem Marshal_color_mem (m : Message) (v : GoString) :
    (bytes "color", v) ∈ Marshal m ↔ m.Color ≠ [] ∧ v = toValidUTF8 m.Color := by
  have e1 : bytes "color" ≠ bytes "pretext" := by decide!
  have e2 : bytes "color" ≠ bytes "text" := by decide!
  have e3 : bytes "color" ≠ bytes "username" := by decide!
  have e4 : bytes "color" ≠ bytes "icon_url" := by decide!
  unfold Marshal
  by_cases hp : m.Pretext = [] <;> by_cases hc : m.Color = [] <;>
    simp [hp, hc, e1, e2, e3, e4]

/-- C8: the payload has a member `color` exactly when the issue key starts with
"SVD", and its value is then "ff0000"; so two events with the same issue key
have the same `color` members, whatever their other fields. -/
theorem getMessage_color (lib : Stdlib) (data : Data) (payload : List (GoString × GoString))
    (h : getMessage lib data = .ok payload) :
    (∀ v, (bytes "color", v) ∈ payload ↔ (bytes "SVD" <+: data.Issue.Key ∧ v = bytes "ff0000")) ∧
      ∀ (lib2 : Stdlib) (data2 : Data) (payload2 : List (GoString × GoString)),
        getMessage lib2 data2 = .ok payload2 → data2.Issue.Key = data.Issue.Key →
        ∀ v, (bytes "color", v) ∈ payload ↔ (bytes "color", v) ∈ payload2 := by
  have key : ∀ (lib : Stdlib) (data : Data) (payload : List (GoString × GoString)),
      getMessage lib data = .ok payload →
      ∀ v, (bytes "color", v) ∈ payload ↔
        (bytes "SVD" <+: data.Issue.Key ∧ v = bytes "ff0000") := by
    intro lib data payload h v
    unfold getMessage message at h
    cases ht : text lib data with
    | error e => rw [ht] at h; cases h
    | ok t =>
      rw [ht] at h
      have hp := Except.ok.inj h
      rw [← hp, Marshal_color_mem]
      have hff : bytes "ff0000" ≠ [] := by decide!
      have hv : toValidUTF8 (bytes "ff0000") = bytes "ff0000" := by decide!
      by_cases hk : bytes "SVD" <+: data.Issue.Key
      · have hk2 : HasPrefix data.Issue.Key (bytes "SVD") = true := by
          unfold HasPrefix; exact List.isPrefixOf_iff_prefix.mpr hk
        simp [color, hk2, hk, hff, hv]
      · have hk2 : HasPrefix data.Issue.Key (bytes "SVD") = false := by
          unfold HasPrefix
          rw [Bool.eq_false_iff]
          exact fun hh => hk (List.isPrefixOf_iff_prefix.mp hh)
        simp [color, hk2, hk]
  refine ⟨key lib data payload h, fun lib2 data2 payload2 h2 hkey v => ?_⟩
  rw [key lib data payload h v, key lib2 data2 payload2 h2 v, hkey]

/-- The event on "SVD-7" is sent with the colour, and the keys "ABC-7", "svd-7"
and "" do not start with "SVD". -/
theorem getMessage_color_witness :
    getMessage exampleLib svdEvent = .ok svdPayload ∧
      (bytes "color", bytes "ff0000") ∈ svdPayload ∧
      ¬ bytes "SVD" <+: bytes "ABC-7" ∧ ¬ bytes "SVD" <+: bytes "svd-7" ∧ ¬ bytes "SVD" <+: [] :=
  ⟨by decide!,
    ((getMessage_color exampleLib svdEvent svdPayload (by decide!)).1 (bytes "ff0000")).mpr
      ⟨by decide!, rfl⟩,
    by decide!, by decide!, by decide!⟩

/-! ## The markup translation -/

/-- On a table with overlapping old strings the first-match and the
longest-match replacers differ. -/
theorem Replace_ne_ReplaceLongest_overlapping :
    Replace overlappingOldNew (bytes "ab") = bytes "1b" ∧
      ReplaceLongest overlappingOldNew (bytes "ab") = bytes "2" := by
  decide!

/-- C9: the translation is one scan from left to right that never scans what
it wrote: where a rule of the table applies, its new string is written and the
scan goes on after its old string; where no rule applies, the byte is copied.
So each of the 34 old strings alone translates to its new string. -/
theorem wikiReplace_single_scan :
    (∀ p ∈ wikiOldNew, ∀ rest, wikiReplace (p.1 ++ rest) = p.2 ++ wikiReplace rest) ∧
      (∀ c rest, (∀ p ∈ wikiOldNew, ¬ p.1 <+: c :: rest) →
        wikiReplace (c :: rest) = c :: wikiReplace rest) ∧
      wikiReplace [] = [] ∧
      (∀ p ∈ wikiOldNew, wikiReplace p.1 = p.2) ∧
      wikiOldNew.length = 34 ∧
      wikiReplace (bytes "h1. x") = bytes "# x" ∧
      wikiReplace (bytes "\x7bcode:java\x7d") = bytes "```java " := by
  have h1 : ∀ p ∈ wikiOldNew, ∀ rest, wikiReplace (p.1 ++ rest) = p.2 ++ wikiReplace rest :=
    fun p hp rest => Replace_old_append wikiOldNew_prefixFree wikiOldNew_old_ne_nil hp rest
  refine ⟨h1, fun c rest h => Replace_cons_of_no_match wikiOldNew c rest h, rfl, ?_, rfl,
    by decide!, by decide!⟩
  intro p hp
  have h := h1 p hp []
  rw [List.append_nil] at h
  rw [h]
  exact List.append_nil _

/-- The heading "h1. x" is translated at its first token only, and a byte
before a smiley is copied. -/
theorem wikiReplace_single_scan_witness :
    wikiReplace (bytes "h1." ++ bytes " x") = bytes "#" ++ wikiReplace (bytes " x") ∧
      wikiReplace (97 :: bytes ":)") = 97 :: wikiReplace (bytes ":)") :=
  ⟨wikiReplace_single_scan.1 (bytes "h1.", bytes "#") (by decide!) (bytes " x"),
    wikiReplace_single_scan.2.1 97 (bytes ":)") (by decide!)⟩

/-- C10: on the table of `wikiReplacer` the replacer of the code, where the
first matching rule in argument order wins, equals the longest-match replacer
on every input: no old string is a prefix of the old string of another rule,
so at every position at most one rule matches. -/
theorem wikiReplace_eq_ReplaceLongest :
    (∀ s, wikiReplace s = ReplaceLongest wikiOldNew s) ∧
      (∀ p ∈ wikiOldNew, ∀ q ∈ wikiOldNew, p.1 <+: q.1 → p = q) ∧
      (∀ s, ∀ p ∈ wikiOldNew, ∀ q ∈ wikiOldNew, p.1 <+: s → q.1 <+: s → p = q) := by
  refine ⟨fun s => ?_, wikiOldNew_prefixFree,
    fun s p hp q hq hps hqs => match_unique wikiOldNew_prefixFree hp hq hps hqs⟩
  unfold wikiReplace Replace ReplaceLongest
  have hfun : lookup wikiOldNew = lookupLongest wikiOldNew :=
    funext fun s => (lookupLongest_eq_lookup wikiOldNew_prefixFree s).symm
  rw [hfun]

/-- On "---- x" both replacers write "--- x", and the old strings "----" and
"--- " do not both match at a position. -/
theorem wikiReplace_eq_ReplaceLongest_witness :
    wikiReplace (bytes "---- x") = ReplaceLongest wikiOldNew (bytes "---- x") ∧
      ReplaceLongest wikiOldNew (bytes "---- x") = bytes "--- x" ∧
      ¬ bytes "--- " <+: bytes "----" :=
  ⟨wikiReplace_eq_ReplaceLongest.1 (bytes "---- x"), by decide!,
    fun h => absurd (wikiReplace_eq_ReplaceLongest.2.1 (bytes "--- ", bytes "    * ") (by decide!)
      (bytes "----", bytes "---") (by decide!) h) (by decide!)⟩

/-- Where no rule matches at any position of `pre`, the scan copies `pre` and
goes on with what follows it. -/
theorem Replace_copy_append (oldnew : List (GoString × GoString)) :
    ∀ (pre s : GoString),
      (∀ i < pre.length, ∀ p ∈ oldnew, ¬ p.1 <+: (pre ++ s).drop i) →
      Replace oldnew (pre ++ s) = pre ++ Replace oldnew s
  | [], _, _ => rfl
  | c :: pre, s, h => by
    have h0 : ∀ p ∈ oldnew, ¬ p.1 <+: c :: (pre ++ s) :=
      fun p hp => h 0 (Nat.succ_pos _) p hp
    rw [List.cons_append, Replace_cons_of_no_match oldnew c (pre ++ s) h0,
      Replace_copy_append oldnew pre s
        (fun i hi p hp => h (i + 1) (Nat.succ_lt_succ hi) p hp)]
    rfl

/-- A string without any old string of the table as a substring is copied. -/
theorem Replace_of_no_infix (oldnew : List (GoString × GoString)) (s : GoString)
    (h : ∀ p ∈ oldnew, ¬ p.1 <:+: s) : Replace oldnew s = s := by
  have hc := Replace_copy_append oldnew s [] (fun i _ p hp hpre => by
    rw [List.append_nil] at hpre
    exact h p hp (hpre.isInfix.trans (List.drop_suffix i s).isInfix))
  rw [List.append_nil] at hc
  rw [hc]
  show s ++ [] = s
  exact List.append_nil s

/-- C11 (as the code has it): the list markers "# ", "## " and "### " are
rewritten to "1. ", "  1. " and "    1. " wherever the scan reaches them,
at the start of a line or not: when no old string matches at a position of
`pre`, the marker that follows `pre` is rewritten and `pre` is copied. -/
theorem wikiReplace_marker_any_context (pre rest marker item : GoString)
    (hm : (marker, item) ∈
      [(bytes "# ", bytes "1. "), (bytes "## ", bytes "  1. "), (bytes "### ", bytes "    1. ")])
    (h : ∀ i < pre.length, ∀ p ∈ wikiOldNew, ¬ p.1 <+: (pre ++ (marker ++ rest)).drop i) :
    wikiReplace (pre ++ (marker ++ rest)) = pre ++ (item ++ wikiReplace rest) := by
  have hmem : (marker, item) ∈ wikiOldNew := by
    simp only [List.mem_cons, List.mem_singleton, List.not_mem_nil, or_false] at hm
    rcases hm with h1 | h1 | h1 <;> rw [h1] <;> decide!
  unfold wikiReplace
  rw [Replace_copy_append wikiOldNew pre (marker ++ rest) h]
  exact congrArg (pre ++ ·)
    (Replace_old_append wikiOldNew_prefixFree wikiOldNew_old_ne_nil hmem rest)

/-- The marker in the middle of the line "issue # 5" is rewritten. -/
theorem wikiReplace_marker_any_context_witness :
    wikiReplace (bytes "issue " ++ (bytes "# " ++ bytes "5")) =
      bytes "issue " ++ (bytes "1. " ++ wikiReplace (bytes "5")) :=
  wikiReplace_marker_any_context (bytes "issue ") (bytes "5") (bytes "# ") (bytes "1. ")
    (by decide!) (by decide!)

/-- C11 (as stated, refuted): in "issue # 5" the marker "# " stands in the
middle of a line, after a space, and the translation is "issue 1. 5", not the
input. -/
theorem wikiReplace_marker_mid_line_counterexample :
    wikiReplace (bytes "issue # 5") = bytes "issue 1. 5" ∧
      wikiReplace (bytes "issue # 5") ≠ bytes "issue # 5" := by
  decide!

/-- C12: a string that contains no old string of the table as a substring is
its own translation, so translating it twice gives the same as once. -/
theorem wikiReplace_of_no_token (s : GoString) (h : ∀ p ∈ wikiOldNew, ¬ p.1 <:+: s) :
    wikiReplace s = s ∧ wikiReplace (wikiReplace s) = wikiReplace s := by
  have h1 : wikiReplace s = s := Replace_of_no_infix wikiOldNew s h
  exact ⟨h1, by rw [h1, h1]⟩

/-- The text "plain text" holds no token and is left as it is. -/
theorem wikiReplace_of_no_token_witness :
    wikiReplace (bytes "plain text") = bytes "plain text" ∧
      wikiReplace (wikiReplace (bytes "plain text")) = wikiReplace (bytes "plain text") :=
  wikiReplace_of_no_token (bytes "plain text") (by decide!)

/-- C17: the translation is not idempotent: "h1. Title" becomes "# Title",
which becomes "1. Title", and "---- x" becomes "--- x", which becomes
"    * x". -/
theorem wikiReplace_not_idempotent :
    (∃ s, wikiReplace (wikiReplace s) ≠ wikiReplace s) ∧
      wikiReplace (bytes "h1. Title") = bytes "# Title" ∧
      wikiReplace (bytes "# Title") = bytes "1. Title" ∧
      wikiReplace (bytes "---- x") = bytes "--- x" ∧
      wikiReplace (bytes "--- x") = bytes "    * x" :=
  ⟨⟨bytes "h1. Title", by decide!⟩, by decide!, by decide!, by decide!, by decide!⟩

/-! ## The comment, the action and the payload members -/

/-- C13: the comment block is "Comment:" on a line of its own, after a
newline, followed by the translated comment and a newline when the comment
body is not empty, and it is empty when the body is empty (an absent comment
decodes to the empty body). -/
theorem comment_block (data : Data) :
    (data.Comment.Body ≠ [] →
        comment data = bytes "\nComment:\n" ++ wikiReplace data.Comment.Body ++ bytes "\n") ∧
      (data.Comment.Body = [] → comment data = []) := by
  constructor
  · intro h
    have hl : data.Comment.Body.length > 0 := List.length_pos.mpr h
    unfold comment
    rw [if_pos hl, Sprintf_comment]
  · intro h
    unfold comment
    rw [h]
    rfl

/-- The comment ":) great" gives the block of the specification. -/
theorem comment_block_witness :
    comment { Comment := { Body := bytes ":) great" } } =
      bytes "\nComment:\n:simple_smile: great\n" :=
  ((comment_block { Comment := { Body := bytes ":) great" } }).1 (by decide!)).trans
    (by decide!)

/-- C14: the action is "created", "updated" or "deleted" for the three event
types of JIRA, compared byte for byte, and empty for every other event type;
whether `getMessage` panics does not depend on the event type. -/
theorem action_of_event (e : GoString) :
    (e = bytes "jira:issue_created" → action e = bytes "created") ∧
      (e = bytes "jira:issue_updated" → action e = bytes "updated") ∧
      (e = bytes "jira:issue_deleted" → action e = bytes "deleted") ∧
      (e ≠ bytes "jira:issue_created" → e ≠ bytes "jira:issue_updated" →
        e ≠ bytes "jira:issue_deleted" → action e = []) ∧
      ∀ (lib : Stdlib) (data : Data) (e2 : GoString) (err : Panic),
        getMessage lib { data with WebhookEvent := e } = .error err ↔
          getMessage lib { data with WebhookEvent := e2 } = .error err := by
  refine ⟨?_, ?_, ?_, ?_, ?_⟩
  · intro h; rw [h]; decide!
  · intro h; rw [h]; decide!
  · intro h; rw [h]; decide!
  · intro h1 h2 h3
    unfold action
    rw [if_neg h1, if_neg h2, if_neg h3]
  · intro lib data e2 err
    unfold getMessage message text changelog
    dsimp only
    cases changelogLoop lib data.Changelog.Items [] with
    | error e0 => exact Iff.rfl
    | ok c =>
      cases lib.urlParse data.Issue.Self with
      | none => exact Iff.rfl
      | some u => exact ⟨fun h => (by cases h), fun h => (by cases h)⟩

/-- The event type of an issue creation gives "created" and the same letters
in upper case give the empty action. -/
theorem action_of_event_witness :
    action (bytes "jira:issue_created") = bytes "created" ∧
      action (bytes "JIRA:ISSUE_CREATED") = [] :=
  ⟨(action_of_event (bytes "jira:issue_created")).1 rfl,
    (action_of_event (bytes "JIRA:ISSUE_CREATED")).2.2.2.1 (by decide!) (by decide!)
      (by decide!)⟩

theorem Marshal_members (m : Message) (hp : m.Pretext = []) :
    (∀ v, (bytes "text", v) ∈ Marshal m ↔ v = toValidUTF8 m.Text) ∧
      (∀ v, (bytes "username", v) ∈ Marshal m ↔ v = toValidUTF8 m.Username) ∧
      (∀ v, (bytes "icon_url", v) ∈ Marshal m ↔ v = toValidUTF8 m.IconURL) ∧
      (∀ v, (bytes "pretext", v) ∉ Marshal m) := by
  have e1 : bytes "text" ≠ bytes "username" := by decide!
  have e2 : bytes "text" ≠ bytes "icon_url" := by decide!
  have e3 : bytes "text" ≠ bytes "color" := by decide!
  have e4 : bytes "username" ≠ bytes "text" := by decide!
  have e5 : bytes "username" ≠ bytes "icon_url" := by decide!
  have e6 : bytes "username" ≠ bytes "color" := by decide!
  have e7 : bytes "icon_url" ≠ bytes "text" := by decide!
  have e8 : bytes "icon_url" ≠ bytes "username" := by decide!
  have e9 : bytes "icon_url" ≠ bytes "color" := by decide!
  have e10 : bytes "pretext" ≠ bytes "text" := by decide!
  have e11 : bytes "pretext" ≠ bytes "username" := by decide!
  have e12 : bytes "pretext" ≠ bytes "icon_url" := by decide!
  have e13 : bytes "pretext" ≠ bytes "color" := by decide!
  unfold Marshal
  by_cases hc : m.Color = [] <;>
    simp [hp, hc, e1, e2, e3, e4, e5, e6, e7, e8, e9, e10, e11, e12, e13]

/-- C15 (as the code has it): in every payload `getMessage` returns, the
member `text` is the composed text coerced to valid UTF-8, as `json.Marshal`
encodes a string, so it is the composed text itself when that is valid UTF-8;
the member `username` is "JIRA", the member `icon_url` is the logo URL of the
repository, each present with that value only, and there is no member
`pretext`. -/
theorem getMessage_members (lib : Stdlib) (data : Data)
    (payload : List (GoString × GoString)) (h : getMessage lib data = .ok payload) :
    ∃ body, text lib data = .ok body ∧
      (∀ v, (bytes "text", v) ∈ payload ↔ v = toValidUTF8 body) ∧
      (ValidString body = true → ∀ v, (bytes "text", v) ∈ payload ↔ v = body) ∧
      (∀ v, (bytes "username", v) ∈ payload ↔ v = bytes "JIRA") ∧
      (∀ v, (bytes "icon_url", v) ∈ payload ↔
        v = bytes "https://raw.githubusercontent.com/hhommersom/mattermost-jira/master/logo-02.png") ∧
      (∀ v, (bytes "pretext", v) ∉ payload) := by
  unfold getMessage message at h
  cases ht : text lib data with
  | error e => rw [ht] at h; cases h
  | ok body =>
    rw [ht] at h
    have hp := Except.ok.inj h
    rw [← hp]
    obtain ⟨h1, h2, h3, h4⟩ := Marshal_members
      { Color := color data, Text := body, Username := bytes "JIRA",
        IconURL := bytes "https://raw.githubusercontent.com/hhommersom/mattermost-jira/master/logo-02.png" }
      rfl
    have hu : toValidUTF8 (bytes "JIRA") = bytes "JIRA" := by decide!
    have hi : toValidUTF8
        (bytes "https://raw.githubusercontent.com/hhommersom/mattermost-jira/master/logo-02.png") =
        bytes "https://raw.githubusercontent.com/hhommersom/mattermost-jira/master/logo-02.png" := by
      decide!
    refine ⟨body, rfl, h1, fun hvalid v => ?_, fun v => ?_, fun v => ?_, h4⟩
    · rw [h1 v, toValidUTF8_of_valid body hvalid]
    · rw [h2 v, hu]
    · rw [h3 v, hi]

/-- The payload of `svdEvent`, whose text is valid UTF-8, carries the text as
composed, names the bot "JIRA" and has no member `pretext`. -/
theorem getMessage_members_witness :
    (∃ body, text exampleLib svdEvent = .ok body ∧ (bytes "text", body) ∈ svdPayload) ∧
      (bytes "username", bytes "JIRA") ∈ svdPayload ∧
      ∀ v, (bytes "pretext", v) ∉ svdPayload := by
  obtain ⟨body, hb, _, ht, hu, _, hp⟩ :=
    getMessage_members exampleLib svdEvent svdPayload (by decide!)
  have hbody : text exampleLib svdEvent = .ok (bytes "![user_icon]() [](:///secure/ViewProfile.jspa?name=) updated  ![task_icon]() [SVD-7](:///browse/SVD-7) \"\"\nStatus: ~~None~~ Done") := by
    decide!
  rw [hbody] at hb
  cases hb
  exact ⟨⟨_, hbody, (ht (by decide!) _).mpr rfl⟩, (hu _).mpr rfl, hp⟩

/-- C15 (as stated, refuted): for `accentEvent` the composed text holds the
stray byte 0xA9 and the member `text` of the payload holds U+FFFD in its
place, so the member is not the composed text. -/
theorem getMessage_text_member_counterexample :
    text exampleLib accentEvent = .ok accentBody ∧
      getMessage exampleLib accentEvent = .ok accentPayload ∧
      (bytes "text", accentBody) ∉ accentPayload := by
  decide!

/-! ## The zero-valued event -/

set_option maxRecDepth 100000 in
/-- C16: for the zero-valued event, with `url.Parse` giving the empty URL on
the empty string, `getMessage` does not panic: the text is the format with
every operand empty (three spaces between the two links) and the payload has
no member `color`. -/
theorem getMessage_zero_event (lib : Stdlib)
    (hu : lib.urlParse [] = some { Scheme := [], Host := [] }) :
    text lib {} = .ok (bytes "![user_icon]() [](:///secure/ViewProfile.jspa?name=)   ![task_icon]() [](:///browse/) \"\"") ∧
      ∃ payload, getMessage lib {} = .ok payload ∧ ∀ v, (bytes "color", v) ∉ payload := by
  have hu2 : lib.urlParse ({} : Data).Issue.Self = some { Scheme := [], Host := [] } := hu
  have ht : text lib {} = .ok (bytes "![user_icon]() [](:///secure/ViewProfile.jspa?name=)   ![task_icon]() [](:///browse/) \"\"") := by
    unfold text
    rw [show changelog lib {} = .ok [] from rfl]
    simp only [hu2]
    rfl
  refine ⟨ht, ?_⟩
  unfold getMessage message
  rw [ht]
  refine ⟨_, rfl, fun v hv => ?_⟩
  exact ((Marshal_color_mem _ v).mp hv).1 rfl

/-- With the tabulated library the zero-valued event gives the text of the
specification. -/
theorem getMessage_zero_event_witness :
    text exampleLib {} = .ok (bytes "![user_icon]() [](:///secure/ViewProfile.jspa?name=)   ![task_icon]() [](:///browse/) \"\"") :=
  (getMessage_zero_event exampleLib (by decide!)).1

/-! ## The previous value of a change -/

/-- C18: for a change whose normalized name is a multiline field the block is
the same whatever the previous value. -/
theorem itemBlock_multiline_from (lib : Stdlib)
    (field fromValue1 fromValue2 toValue name : GoString)
    (hn : itemName lib field = .ok name) (hm : JiraMultilineFields name = true) :
    itemBlock lib { Field := field, FromString := fromValue1, ToString := toValue } =
      itemBlock lib { Field := field, FromString := fromValue2, ToString := toValue } := by
  unfold itemBlock
  dsimp only
  rw [hn]
  simp only [hm, if_true]

/-- The block of a change of "description" to "z" is the same from "x" and
from "y". -/
theorem itemBlock_multiline_from_witness :
    itemBlock exampleLib { Field := bytes "description", FromString := bytes "x", ToString := bytes "z" } =
      itemBlock exampleLib
        { Field := bytes "description", FromString := bytes "y", ToString := bytes "z" } :=
  itemBlock_multiline_from exampleLib (bytes "description") (bytes "x") (bytes "y") (bytes "z")
    (bytes "Description") (by decide!) (by decide!)

theorem Trim_of_all_spaces (s : GoString) (h : ∀ b ∈ s, b = 32) : Trim s (bytes " ") = [] := by
  have hb : bytes " " = [32] := rfl
  unfold Trim
  have hr : (s.rdropWhile fun b => (bytes " ").contains b) = [] := by
    rw [List.rdropWhile_eq_nil_iff]
    intro x hx
    rw [h x hx, hb]
    rfl
  rw [hr]
  rfl

/-- C19: for a change that is not multiline and whose previous value is not
empty and holds spaces only, nothing stands between the strike-through marks:
"None" replaces the empty previous value only, before the trimming. -/
theorem itemBlock_spaces_from (lib : Stdlib) (item : Item) (name : GoString)
    (hn : itemName lib item.Field = .ok name) (hm : JiraMultilineFields name = false)
    (hne : item.FromString ≠ []) (hsp : ∀ b ∈ item.FromString, b = 32) :
    itemBlock lib item = .ok (bytes "\n" ++ name ++ bytes ": ~~~~ " ++ item.ToString) := by
  have e : bytes ": ~~~~ " = bytes ": ~~" ++ bytes "~~ " := by decide!
  unfold itemBlock
  rw [hn]
  simp only [hm, Bool.false_eq_true, if_false, if_neg hne]
  rw [Sprintf_inline, Trim_of_all_spaces item.FromString hsp, e]
  simp only [List.append_nil, List.append_assoc]

/-- The change of "status" from two spaces to "Done" renders with empty
strike-through marks, not with "None". -/
theorem itemBlock_spaces_from_witness :
    itemBlock exampleLib { Field := bytes "status", FromString := bytes "  ", ToString := bytes "Done" } =
        .ok (bytes "\nStatus: ~~~~ Done") ∧
      itemBlock exampleLib { Field := bytes "status", FromString := bytes "  ", ToString := bytes "Done" } ≠
        .ok (bytes "\nStatus: ~~None~~ Done") :=
  ⟨(itemBlock_spaces_from exampleLib
      { Field := bytes "status", FromString := bytes "  ", ToString := bytes "Done" }
      (bytes "Status") (by decide!) (by decide!) (by decide!) (by decide!)).trans (by decide!),
    by decide!⟩

end MattermostJira
